import Mathlib

/-!
Verification development for a streaming Edge Side Includes (ESI) processor
written in Rust.  The Rust sources are shallowly embedded below, file by file:

* `src/esi/src/symbols.rs` / `src/esi/src/string_functions.rs`
  — expression values, the `$string_split` / `$join` functions, and the
  variable resolution chain (`resolve_var`, `value_or_default`,
  `header_value`, `var_http_cookie`, `var_query_string`);
* `src/esi/src/parse.rs` — the directive recogniser (`parse_include` and the
  tag classification performed by the guards of `do_parse`);
* `src/esi/src/error.rs` — the `ExecutionError` enum;
* `src/esi/src/document.rs` / `src/esi/src/lib.rs` — the element queue and
  the assembly scheduler (`poll_elements`, `poll_tasks`,
  `send_fragment_request`, and the driver loop of `process_document`).

Machine integers do not occur on the paths modelled here except `usize` in
`string_split`, which is modelled as a bounded natural number.  Rust strings
are modelled as Lean `String`s (all byte-level operations involved here are
ASCII-safe).  The Fastly runtime (HTTP dispatch, pending requests, device
lookup, randomness) is modelled as explicit data in an environment record,
as the specification directs for external collaborators.
-/

namespace Esi

/-! ### Expression values — `src/esi/src/symbols.rs`, `enum EValue`

The declared enum has the three variants `Dict`, `List`, `Str` (borrowed /
owned `Cow` distinctions are invisible value-wise). -/

inductive EValue where
  | Dict : List (String × String) → EValue
  | List : List String → EValue
  | Str : String → EValue
deriving DecidableEq, Repr

/-- `EValue::as_str`: a `Str` dereferences to its contents, every other
variant yields the empty string (the commented-out formatting fallback in
the source is dead code). -/
def EValue.as_str : EValue → String
  | .Str s => s
  | _ => ""

/-- `EValue::is_empty` — empty dict, empty list, or empty string. -/
def EValue.is_empty : EValue → Bool
  | .Dict v => v.isEmpty
  | .List v => v.isEmpty
  | .Str s => s.isEmpty

/-! ### Rust `str::splitn` semantics

`string_split` relies on Rust's `str::splitn(n, sep)`: at most `n` pieces,
the last piece holding the rest of the string; `n = 0` yields no pieces at
all.  An empty separator matches at every character boundary, including the
start, so the first piece is empty and subsequent matches advance one
character at a time. -/

/-- First occurrence of `sep` inside `cs`: returns the part before the match
and the part after it (`cs = before ++ sep ++ after`). -/
def findSub (sep : List Char) : List Char → Option (List Char × List Char)
  | [] => if sep = [] then some ([], []) else none
  | c :: rest =>
    if sep.isPrefixOf (c :: rest) then some ([], (c :: rest).drop sep.length)
    else (findSub sep rest).map (fun p => (c :: p.1, p.2))

/-- Rust `str::splitn` on character lists.  `n = 0` gives no pieces; `n = 1`
gives the whole input; for the empty separator the matches sit at every
character boundary starting at position 0. -/
def splitnList (n : Nat) (sep cs : List Char) : List (List Char) :=
  if sep = [] then
    match n with
    | 0 => []
    | 1 => [cs]
    | m + 2 => ([] : List Char) :: (cs.take m).map (fun c => [c]) ++ [cs.drop m]
  else
    match n with
    | 0 => []
    | 1 => [cs]
    | m + 2 =>
      match findSub sep cs with
      | none => [cs]
      | some (before, after) => before :: splitnList (m + 1) sep after

/-- Unbounded Rust `str::split`, stated from the spec's words "default max =
all": with a piece budget that can never be exhausted, `splitn` performs
every split. -/
def splitAll (sep cs : List Char) : List (List Char) :=
  splitnList (cs.length + 1) sep cs

/-- `str::splitn` lifted to `String`s. -/
def rustSplitn (n : Nat) (sep s : String) : List String :=
  (splitnList n sep.data s.data).map (fun cs => String.mk cs)

/-- Rust `str::split_once('=')` — the pieces before and after the first
equals sign, or nothing when the string holds none. -/
def splitOnceEq (s : String) : Option (String × String) :=
  (findSub ['='] s.data).map (fun p => (String.mk p.1, String.mk p.2))

/-- `usize::MAX` on the 32-bit wasm target the crate is built for. -/
def usizeMax : Nat := 4294967295

/-- Rust `str::parse::<usize>().ok()`: an optional leading `+`, then one or
more ASCII digits, rejecting overflow. -/
def parseUsize (s : String) : Option Nat :=
  let digits := match s.data with
    | '+' :: rest => rest
    | l => l
  if digits.isEmpty ∨ ¬ digits.all Char.isDigit then none
  else
    let v := digits.foldl (fun acc c => acc * 10 + (c.toNat - 48)) 0
    if v ≤ usizeMax then some v else none

/-! ### `src/esi/src/string_functions.rs` -/

/-- `string_split(string [,sep] [,max_sep])`: missing string defaults to
`""`, missing separator to a single space, missing or unparseable max to
`usize::MAX`. -/
def string_split (args : List EValue) : EValue :=
  let string := (args.head?.map EValue.as_str).getD ""
  let sep := (args[1]?.map EValue.as_str).getD " "
  let max_sep := (args[2]?.bind (fun s => parseUsize s.as_str)).getD usizeMax
  EValue.List (rustSplitn max_sep sep string)

/-- `join(list [,sep])`: no arguments yields `""`; a non-list first argument
is passed through `as_str`; otherwise the list is joined with the separator
(default a single space). -/
def join (args : List EValue) : EValue :=
  match args with
  | [] => EValue.Str ""
  | arg0 :: _ =>
    match arg0 with
    | EValue.List l =>
      let sep := (args[1]?.map EValue.as_str).getD " "
      EValue.Str (String.intercalate sep l)
    | _ => EValue.Str arg0.as_str

/-! ### `src/esi/src/error.rs` — `enum ExecutionError`

The enum exactly as declared: six variants.  `quick_xml::Error` and the
transport `SendError` are opaque to this crate and are modelled as strings.
(`parse.rs` additionally mentions an `ExecutionError::UnexpectedOpeningTag`
constructor in `unexpected_opening_tag_error`, but no such variant is
declared in `error.rs`, and no `WriterError` variant exists anywhere:
writer failures in `lib.rs` go through `unwrap`/`expect`.) -/

inductive ExecutionError where
  | XMLError : String → ExecutionError
  | MissingRequiredParameter : String → String → ExecutionError
  | UnexpectedClosingTag : String → ExecutionError
  | InvalidRequestUrl : String → ExecutionError
  | RequestError : String → ExecutionError
  | UnexpectedStatus : String → Nat → ExecutionError
deriving DecidableEq, Repr

/-- The Rust-source name of an `ExecutionError`'s variant. -/
def ExecutionError.variantName : ExecutionError → String
  | .XMLError _ => "XMLError"
  | .MissingRequiredParameter _ _ => "MissingRequiredParameter"
  | .UnexpectedClosingTag _ => "UnexpectedClosingTag"
  | .InvalidRequestUrl _ => "InvalidRequestUrl"
  | .RequestError _ => "RequestError"
  | .UnexpectedStatus _ _ => "UnexpectedStatus"

/-- The declared variant list of `ExecutionError`, in declaration order. -/
def executionErrorVariants : List String :=
  ["XMLError", "MissingRequiredParameter", "UnexpectedClosingTag",
   "InvalidRequestUrl", "RequestError", "UnexpectedStatus"]

/-- The variant list §6 of the spec claims for the surfaced error type. -/
def specClaimedVariants : List String :=
  ["XmlParseError", "MissingRequiredParameter", "UnexpectedClosingTag",
   "UnexpectedOpeningTag", "InvalidRequestUrl", "RequestError",
   "UnexpectedStatus", "WriterError"]

/-! ### `src/esi/src/parse.rs` — `parse_include`

XML attributes of a start tag, as surfaced by `elem.attributes().flatten()`
(quick_xml yields each well-formed attribute once; a duplicated key is
reported as an error and discarded by `flatten`, so key lists are
duplicate-free in practice).  Keys and values are byte strings in the
source; modelled as `String`s. -/

structure Attr where
  key : String
  value : String
deriving DecidableEq, Repr

/-- The payload of a parsed `esi:include` tag (`Tag::Include`). -/
structure IncludeTag where
  src : String
  alt : Option String
  continue_on_error : Bool
deriving DecidableEq, Repr

/-- `parse_include`: `src` is required (its absence is
`MissingRequiredParameter(tag_name, "src")`), `alt` is optional, and
`continue_on_error` is `is_some_and(value == b"continue")` on the first
`onerror` attribute. -/
def parse_include (tagName : String) (attrs : List Attr) :
    Except ExecutionError IncludeTag :=
  match attrs.find? (fun a => a.key = "src") with
  | none => .error (.MissingRequiredParameter tagName "src")
  | some srcAttr =>
    .ok { src := srcAttr.value
          alt := (attrs.find? (fun a => a.key = "alt")).map Attr.value
          continue_on_error :=
            ((attrs.find? (fun a => a.key = "onerror")).map
              (fun a => a.value == "continue")).getD false }

/-! ### `src/esi/src/parse.rs` — tag recognition in `do_parse`

`EsiTags::init` builds the six qualified names from the configured
namespace.  The guards of `do_parse`'s big `match` test, in order:

* for `Start` events — `remove` by exact `QName` equality, then `include`
  by `starts_with` on the raw name bytes, then `try`, `attempt`, `except`
  by exact equality;
* for `Empty` (self-closing) events — `include` then `comment`, both by
  `starts_with`.

Rust's `[u8]::starts_with` on the UTF-8 name bytes agrees with the
character-level prefix test used here because the patterns are ASCII. -/

structure EsiTags where
  includeName : String
  comment : String
  remove : String
  tryy : String
  attempt : String
  except : String
deriving DecidableEq, Repr

/-- `EsiTags::init`: qualified names `<namespace>:<directive>`. -/
def EsiTags.init (namespace_ : String) : EsiTags :=
  { includeName := namespace_ ++ ":include"
    comment := namespace_ ++ ":comment"
    remove := namespace_ ++ ":remove"
    tryy := namespace_ ++ ":try"
    attempt := namespace_ ++ ":attempt"
    except := namespace_ ++ ":except" }

/-- Rust `name.starts_with(pattern)` on name bytes. -/
def startsWith (name pattern : String) : Bool :=
  pattern.data.isPrefixOf name.data

/-- How `do_parse` classifies one XML event name. -/
inductive TagKind where
  | includeTag | commentTag | removeTag | tryTag | attemptTag | exceptTag
  | passthrough
deriving DecidableEq, Repr

/-- Classification of a `Start` event name by `do_parse`'s guards, in the
textual order of the match arms. -/
def classifyStart (t : EsiTags) (name : String) : TagKind :=
  if name = t.remove then .removeTag
  else if startsWith name t.includeName then .includeTag
  else if name = t.tryy then .tryTag
  else if name = t.attempt then .attemptTag
  else if name = t.except then .exceptTag
  else .passthrough

/-- Classification of an `Empty` (self-closing) event name by `do_parse`'s
guards, in the textual order of the match arms. -/
def classifyEmpty (t : EsiTags) (name : String) : TagKind :=
  if startsWith name t.includeName then .includeTag
  else if startsWith name t.comment then .commentTag
  else .passthrough

/-! ### `src/esi/src/symbols.rs` — symbols and variable resolution

`Symbol` is the expression AST.  The request context consulted by
`resolve_var` is modelled as a record: headers and query parameters as
association lists (first match wins, as for `get_header_str` /
`get_query_parameter`), plus the runtime services (`client_ip_addr`,
`device_detection::lookup`, `rand::thread_rng`) as explicit fields. -/

inductive Symbol where
  | Function : String → List Symbol → Symbol
  | Variable : String → Option String → Option Symbol → Symbol
  | Text : Option String → Symbol

structure RequestCtx where
  headers : List (String × String)
  query : List (String × String)
  method : String
  path : String
  client_ip : Option String
  device_lookup : String → Option (Option String)
  rng : Nat → Nat

/-- `Request::get_header_str`: the first header with this name, if any. -/
def RequestCtx.get_header_str (ctx : RequestCtx) (name : String) :
    Option String :=
  (ctx.headers.find? (fun p => p.1 == name)).map Prod.snd

/-- `Request::get_query_parameter`: the first query pair with this key. -/
def RequestCtx.get_query_parameter (ctx : RequestCtx) (key : String) :
    Option String :=
  (ctx.query.find? (fun p => p.1 == key)).map Prod.snd

/-- `resolve_fn` applied to already-processed arguments (the recursive
argument processing happens in `handle_symbol`).  `dollar`, `dquote` and
`squote` emit their literal; `rand` parses its first argument as `u32`
(falling back to `99_999_999`) and draws from the runtime's generator; an
unrecognised name expands to the literal string `unknown_function`.  (The
source indexes `processed_args[0]` for `rand` and would panic on an empty
argument list; that call is modelled with the empty string.) -/
def resolve_fn (ctx : RequestCtx) (name : String)
    (processed_args : List EValue) : EValue :=
  if name = "dollar" then .Str "$"
  else if name = "dquote" then .Str "\""
  else if name = "squote" then .Str "'"
  else if name = "string_split" then string_split processed_args
  else if name = "join" then join processed_args
  else if name = "rand" then
    let n := (parseUsize ((processed_args.head?.map EValue.as_str).getD "")).getD 99999999
    .Str (toString (ctx.rng n))
  else .Str "unknown_function"

/-- Rust `str::split(';')` on a character list: the pieces between the
semicolons (always one more piece than separators). -/
def splitChar (c : Char) : List Char → List (List Char)
  | [] => [[]]
  | x :: rest =>
    if x = c then [] :: splitChar c rest
    else
      match splitChar c rest with
      | [] => [[x]]
      | p :: ps => (x :: p) :: ps

/-- Rust `str::trim`: strip leading and trailing whitespace. -/
def trimChars (cs : List Char) : List Char :=
  ((cs.dropWhile Char.isWhitespace).reverse.dropWhile Char.isWhitespace).reverse

/-- The cookie pairs seen by `var_http_cookie`: the `cookie` header (or
the empty string), split on `;`, each piece trimmed and split once on
`=`; pieces without an equals sign are dropped (`filter_map`). -/
def cookiePairs (ctx : RequestCtx) : List (String × String) :=
  ((splitChar ';' ((ctx.get_header_str "cookie").getD "").data).map
      (fun piece => String.mk (trimChars piece))).filterMap splitOnceEq

mutual

/-- `handle_symbol`: text passes through, a function call resolves its
arguments recursively and dispatches on the name, a variable goes through
`resolve_var`. -/
def handle_symbol (ctx : RequestCtx) (s : Symbol) : EValue :=
  match s with
  | .Text (some t) => .Str t
  | .Text none => .Str ""
  | .Function name args =>
    resolve_fn ctx name (args.attach.map (fun a => handle_symbol ctx a.1))
  | .Variable name key dflt => resolve_var ctx name key dflt
termination_by (sizeOf s, 5)
decreasing_by
  · have := List.sizeOf_lt_of_mem a.2
    decreasing_tactic
  · decreasing_tactic

/-- `resolve_var`: dispatch on the ESI variable name; an unknown variable
resolves to its literal source form. -/
def resolve_var (ctx : RequestCtx) (name : String) (key : Option String)
    (dflt : Option Symbol) : EValue :=
  if name = "HTTP_ACCEPT_LANGUAGE" then header_value ctx "accept-language" dflt
  else if name = "HTTP_COOKIE" then var_http_cookie ctx key dflt
  else if name = "HTTP_HOST" then header_value ctx "host" dflt
  else if name = "HTTP_REFERER" then header_value ctx "referer" dflt
  else if name = "HTTP_USER_AGENT" then var_http_user_agent ctx key dflt
  else if name = "QUERY_STRING" then var_query_string ctx key dflt
  else if name = "REMOTE_ADDR" then .Str (ctx.client_ip.getD "")
  else if name = "REQUEST_METHOD" then .Str ctx.method
  else if name = "REQUEST_PATH" then .Str ctx.path
  else match key with
    | none => .Str ("$(" ++ name ++ ")")
    | some k => .Str ("$(" ++ name ++ "\x7b" ++ k ++ "\x7d)")
termination_by (sizeOf dflt, 4)

/-- `var_query_string`: no key yields the whole query as a `Dict`, a key
yields that parameter; an empty result is normalised to `None` before the
default is consulted. -/
def var_query_string (ctx : RequestCtx) (key : Option String)
    (dflt : Option Symbol) : EValue :=
  let qs : Option EValue :=
    match key with
    | none => some (EValue.Dict ctx.query)
    | some k => (ctx.get_query_parameter k).map EValue.Str
  let qs := qs.bind (fun v => if v.is_empty then none else some v)
  value_or_default ctx qs dflt
termination_by (sizeOf dflt, 3)

/-- `value_or_default`: the value if present — with no emptiness check —
otherwise the evaluated default, or the empty string when no default was
given. -/
def value_or_default (ctx : RequestCtx) (value : Option EValue)
    (dflt : Option Symbol) : EValue :=
  match value with
  | some v => v
  | none =>
    match dflt with
    | none => .Str ""
    | some s => handle_symbol ctx s
termination_by (sizeOf dflt, 1)

/-- `header_value`: the header's value as a `Str` if the header is present
(no emptiness normalisation), the default otherwise. -/
def header_value (ctx : RequestCtx) (headerName : String)
    (dflt : Option Symbol) : EValue :=
  value_or_default ctx ((ctx.get_header_str headerName).map EValue.Str) dflt
termination_by (sizeOf dflt, 2)

/-- `var_http_user_agent`: key `browser` runs the device lookup, any other
key (or none) yields the full user-agent resolution. -/
def var_http_user_agent (ctx : RequestCtx) (key : Option String)
    (dflt : Option Symbol) : EValue :=
  let user_agent := header_value ctx "user-agent" dflt
  match key with
  | none => user_agent
  | some k =>
    if k = "browser" then
      let browser := ((ctx.device_lookup user_agent.as_str).map id).getD none
      .Str (browser.getD "OTHER")
    else user_agent
termination_by (sizeOf dflt, 3)

/-- `var_http_cookie`: the `cookie` header split on `;`, each piece trimmed
and split once on `=`.  No key yields the whole `Dict` (wrapped in `Some`,
so the default is never consulted); a key yields that cookie's value when
found, the default otherwise. -/
def var_http_cookie (ctx : RequestCtx) (key : Option String)
    (dflt : Option Symbol) : EValue :=
  let cookies := cookiePairs ctx
  match key with
  | none => value_or_default ctx (some (EValue.Dict cookies)) dflt
  | some k =>
    let found := (cookies.find? (fun p => p.1 == k)).map (fun p => EValue.Str p.2)
    match found with
    | none => value_or_default ctx none dflt
    | some v => value_or_default ctx (some v) dflt
termination_by (sizeOf dflt, 3)

end

/-! ### `src/esi/src/document.rs` — elements, fragments, task state

A pending request is the runtime handle held by a fragment; awaiting it
blocks until that particular backend answers, whatever the completion order
of the other in-flight requests.  It is therefore modelled by the response
it eventually resolves to (or a transport error), together with the time at
which the backend answers — the `arrival` field exists precisely so that
theorems can quantify over completion orders; the scheduler never reads
it. -/

structure RequestM where
  url : String
deriving DecidableEq, Repr

structure ResponseM where
  status : Nat
  body : String
deriving DecidableEq, Repr

structure PendingRequest where
  result : Except String ResponseM
  arrival : Nat

/-- `http::StatusCode::is_success` — `2xx` only. -/
def isSuccess (status : Nat) : Bool := 200 ≤ status && status ≤ 299

/-- `Fragment` of `document.rs`: the issued request's metadata, the
optional pre-built alt request (itself a `Result`, as `build_fragment_request`
may have failed), the `onerror` flag and the pending handle. -/
structure Fragment where
  request : RequestM
  alt : Option (Except ExecutionError RequestM)
  continue_on_error : Bool
  pending_request : PendingRequest

/-- `FetchState` (named `PollTaskState` at its use sites in `lib.rs`). -/
inductive FetchState where
  | Failed : RequestM → Nat → FetchState
  | Pending : FetchState
  | Succeeded : FetchState
deriving Repr

/-- The fields of `Task`: the element queue, the private output buffer
(a `Writer<Vec<u8>>` in the source), and the task status. -/
structure TaskData (α : Type) where
  queue : List α
  output : String
  status : FetchState

/-- `Element`: raw bytes, a pending include fragment, or a try block
carrying its two branch tasks. -/
inductive Element where
  | Raw : String → Element
  | Include : Fragment → Element
  | Try : TaskData Element → TaskData Element → Element

abbrev Task := TaskData Element

/-! ### `src/esi/src/lib.rs` — dispatch and the polling scheduler

The runtime's `dispatch_fragment_request` interface is the environment: for
a request it fails, declines (`None`), or returns the pending handle.  The
optional `process_fragment_response` hook is absent (the `else` branch of
the source).  Every function below additionally returns the list of
requests it handed to `dispatch`, in call order, so that theorems can speak
about which requests were dispatched. -/

structure Env where
  dispatch : RequestM → Except ExecutionError (Option PendingRequest)

/-- `send_fragment_request`: dispatch the request; `Ok(None)` skips the
fragment, otherwise the new fragment records the request, alt, flag and
handle. -/
def send_fragment_request (env : Env) (req : RequestM)
    (alt : Option (Except ExecutionError RequestM)) (continue_on_error : Bool) :
    Except ExecutionError (Option Fragment) × List RequestM :=
  (match env.dispatch req with
    | .ok (some pending) => .ok (some ⟨req, alt, continue_on_error, pending⟩)
    | .ok none => .ok none
    | .error e => .error e,
   [req])

mutual

/-- `poll_elements`: pop the queue front; raw bytes go to the writer,
includes are awaited (success appends the body; failure dispatches the alt
to the queue front and breaks, or continues, or aborts), try blocks go
through both branch tasks.  Returns the remaining queue and the grown
output. -/
def poll_elements (env : Env) (elements : List Element) (out : String) :
    Except ExecutionError (List Element × String) × List RequestM :=
  match elements with
  | [] => (.ok ([], out), [])
  | .Raw raw :: rest => poll_elements env rest (out ++ raw)
  | .Include frag :: rest =>
    match frag.pending_request.result with
    | .error err => (.error (.RequestError err), [])
    | .ok res =>
      if isSuccess res.status then
        poll_elements env rest (out ++ res.body)
      else
        match frag.alt with
        | some (.error e) => (.error e, [])
        | some (.ok req) =>
          match send_fragment_request env req none frag.continue_on_error with
          | (.ok (some fragment), log) =>
            (.ok (.Include fragment :: rest, out), log)
          | (.ok none, log) =>
            let next := poll_elements env rest out
            (next.1, log ++ next.2)
          | (.error e, log) => (.error e, log)
        | none =>
          if frag.continue_on_error then poll_elements env rest out
          else (.error (.UnexpectedStatus frag.request.url res.status), [])
  | .Try attempt_task except_task :: rest =>
    match poll_try env attempt_task except_task out with
    | (.error e, log) => (.error e, log)
    | (.ok ([], out2), log) =>
      let next := poll_elements env rest out2
      (next.1, log ++ next.2)
    | (.ok (q, out2), log) => (.ok (q ++ rest, out2), log)
termination_by sizeOf elements

/-- The `Element::Try` arm of `poll_elements`: poll the attempt task, then
the except task, and resolve.  On success of either branch its private
buffer is flushed to the writer; when both failed the attempt's failure is
surfaced; while either is pending the block is re-queued (at the front of
the enclosing queue; the caller appends `rest`). -/
def poll_try (env : Env) (attempt_task except_task : Task) (out : String) :
    Except ExecutionError (List Element × String) × List RequestM :=
  match poll_tasks env attempt_task with
  | (.error e, loga) => (.error e, loga)
  | (.ok (attempt_task2, attempt_state), loga) =>
    match poll_tasks env except_task with
    | (.error e, loge) => (.error e, loga ++ loge)
    | (.ok (except_task2, except_state), loge) =>
      match attempt_state, except_state with
      | .Succeeded, _ =>
        (.ok ([], out ++ attempt_task2.output), loga ++ loge)
      | .Failed _ _, .Succeeded =>
        (.ok ([], out ++ except_task2.output), loga ++ loge)
      | .Failed req res, .Failed _ _ =>
        (.error (.UnexpectedStatus req.url res), loga ++ loge)
      | _, _ =>
        (.ok ([.Try attempt_task2 except_task2], out), loga ++ loge)
termination_by sizeOf attempt_task + sizeOf except_task
decreasing_by
  · cases except_task
    simp
  · cases attempt_task
    simp

/-- `poll_tasks`: a task already `Failed` reports its failure immediately;
otherwise the queue is drained into the task's own buffer.  The status
field is updated only when an include fails fatally, exactly as in the
source (draining to completion returns `Succeeded` without storing it). -/
def poll_tasks (env : Env) (task : Task) :
    Except ExecutionError (Task × FetchState) × List RequestM :=
  match task.status with
  | .Failed req st => (.ok (task, .Failed req st), [])
  | _ =>
    match poll_task_queue env task.queue task.output with
    | (.error e, log) => (.error e, log)
    | (.ok (q, outp, state), log) =>
      (.ok ({ queue := q, output := outp,
              status := match state with
                | .Failed req st => .Failed req st
                | _ => task.status },
            state), log)
termination_by sizeOf task
decreasing_by
  cases task
  simp
  omega

/-- The `while let` loop of `poll_tasks` over one task's queue, appending
to the task's buffer.  A nested `Try` is polled through a fresh singleton
queue whose leftover is dropped, as in the source.  Returns the remaining
queue, the buffer, and the task's resulting poll state. -/
def poll_task_queue (env : Env) (queue : List Element) (out : String) :
    Except ExecutionError (List Element × String × FetchState) × List RequestM :=
  match queue with
  | [] => (.ok ([], out, .Succeeded), [])
  | .Raw raw :: rest => poll_task_queue env rest (out ++ raw)
  | .Try attempt_task except_task :: rest =>
    match poll_try env attempt_task except_task out with
    | (.error e, log) => (.error e, log)
    | (.ok (_leftover, out2), log) =>
      let next := poll_task_queue env rest out2
      (next.1, log ++ next.2)
  | .Include frag :: rest =>
    match frag.pending_request.result with
    | .error err => (.error (.RequestError err), [])
    | .ok res =>
      if isSuccess res.status then
        poll_task_queue env rest (out ++ res.body)
      else
        match frag.alt with
        | some (.error e) => (.error e, [])
        | some (.ok req) =>
          match send_fragment_request env req none frag.continue_on_error with
          | (.ok (some fragment), log) =>
            (.ok (.Include fragment :: rest, out, .Pending), log)
          | (.ok none, log) =>
            let next := poll_task_queue env rest out
            (next.1, log ++ next.2)
          | (.error e, log) => (.error e, log)
        | none =>
          if frag.continue_on_error then poll_task_queue env rest out
          else (.ok (rest, out, .Failed frag.request res.status), [])
termination_by sizeOf queue

end

/-- The driver loop at the end of `process_document`: poll until the
element queue is empty, propagating errors.  The source's `loop` is given
explicit fuel; `none` means the fuel ran out before the queue drained. -/
def drive (env : Env) (fuel : Nat) (elements : List Element) (out : String) :
    Option (Except ExecutionError String × List RequestM) :=
  match fuel with
  | 0 => none
  | fuel + 1 =>
    if elements.isEmpty then some (.ok out, [])
    else
      match poll_elements env elements out with
      | (.error e, log) => some (.error e, log)
      | (.ok (q, out2), log) =>
        (drive env fuel q out2).map (fun r => (r.1, log ++ r.2))


/-! ## Supporting lemmas for the string functions -/

theorem findSub_eq (sep : List Char) :
    ∀ (cs b a : List Char), findSub sep cs = some (b, a) → cs = b ++ sep ++ a := by
  intro cs
  induction cs with
  | nil =>
    intro b a h
    unfold findSub at h
    split at h
    · rename_i hs
      simp only [Option.some.injEq, Prod.mk.injEq] at h
      simp [hs, ← h.1, ← h.2]
    · exact absurd h (by simp)
  | cons c rest ih =>
    intro b a h
    unfold findSub at h
    split at h
    · rename_i hpre
      simp only [Option.some.injEq, Prod.mk.injEq] at h
      rw [List.isPrefixOf_iff_prefix] at hpre
      obtain ⟨hb, ha⟩ := h
      subst hb ha
      conv_lhs => rw [← List.prefix_iff_eq_append.mp hpre]
      simp
    · simp only [Option.map_eq_some'] at h
      obtain ⟨⟨b2, a2⟩, hfind, heq⟩ := h
      simp only [Prod.mk.injEq] at heq
      rw [← heq.1, ← heq.2, ih b2 a2 hfind]
      simp

theorem findSub_length (sep cs b a : List Char) (h : findSub sep cs = some (b, a))
    (hsep : sep ≠ []) : a.length + 1 ≤ cs.length := by
  have hcs := findSub_eq sep cs b a h
  have hs : 1 ≤ sep.length := by
    cases sep
    · simp at hsep
    · simp
  subst hcs
  simp only [List.length_append]
  omega

theorem splitnList_stable_fuel (sep : List Char) (hsep : sep ≠ []) :
    ∀ (fuel : Nat) (cs : List Char) (n m : Nat), cs.length < fuel →
      cs.length + 1 ≤ n → cs.length + 1 ≤ m →
      splitnList n sep cs = splitnList m sep cs := by
  intro fuel
  induction fuel with
  | zero => omega
  | succ fuel ih =>
    intro cs n m hfuel hn hm
    match n, m with
    | 1, 1 => rfl
    | 1, m + 2 =>
      have hcs : cs = [] := by
        have := List.length_eq_zero.mp (by omega : cs.length = 0)
        exact this
      subst hcs
      simp [splitnList, hsep, findSub]
    | n + 2, 1 =>
      have hcs : cs = [] := List.length_eq_zero.mp (by omega)
      subst hcs
      simp [splitnList, hsep, findSub]
    | n + 2, m + 2 =>
      unfold splitnList
      simp only [hsep, if_false]
      cases hfind : findSub sep cs with
      | none => rfl
      | some p =>
        obtain ⟨b, a⟩ := p
        have hlen := findSub_length sep cs b a hfind hsep
        simp only []
        rw [ih a (n + 1) (m + 1) (by omega) (by omega) (by omega)]

theorem splitnList_stable (sep : List Char) (hsep : sep ≠ []) (cs : List Char)
    (n : Nat) (hn : cs.length + 1 ≤ n) :
    splitnList n sep cs = splitAll sep cs :=
  splitnList_stable_fuel sep hsep (cs.length + 1) cs n (cs.length + 1)
    (by omega) hn (by omega)

theorem splitnList_ne_nil (n : Nat) (sep cs : List Char) (h : n ≠ 0) :
    splitnList n sep cs ≠ [] := by
  unfold splitnList
  split
  · match n, h with
    | 1, _ => simp
    | m + 2, _ => simp
  · match n, h with
    | 1, _ => simp
    | m + 2, _ =>
      cases hfind : findSub sep cs with
      | none => simp
      | some p => obtain ⟨b, a⟩ := p; simp



/-! ## C7 and C10 — `string_split` and `join` -/

/-- C7.  `$string_split` on `a:b:c` with separator `:` and max `2` yields
the two-element list `[a, b:c]`, and `$join` with separator `,` turns that
list into `a,b:c`.  With a single argument, `string_split` uses the single
space separator and the `usize::MAX` piece budget, which (for any string
shorter than `usize::MAX` characters) performs every split; `join` with a
single argument joins with a single space. -/
theorem string_split_join_spec :
    string_split [EValue.Str "a:b:c", EValue.Str ":", EValue.Str "2"]
        = EValue.List ["a", "b:c"] ∧
    join [EValue.List ["a", "b:c"], EValue.Str ","] = EValue.Str "a,b:c" ∧
    (∀ s : String,
        string_split [EValue.Str s] = EValue.List (rustSplitn usizeMax " " s)) ∧
    (∀ s : String, s.data.length + 1 ≤ usizeMax →
        rustSplitn usizeMax " " s = (splitAll [' '] s.data).map String.mk) ∧
    (∀ l : List String,
        join [EValue.List l] = EValue.Str (String.intercalate " " l)) := by
  refine ⟨by decide, by decide, fun s => rfl, fun s h => ?_, fun l => rfl⟩
  unfold rustSplitn
  rw [show (" " : String).data = [' '] from rfl,
    splitnList_stable [' '] (by simp) s.data usizeMax h]

/-- C7 witness: the defaulted forms evaluated at concrete inputs through
the theorem. -/
theorem string_split_join_spec_witness :
    string_split [EValue.Str "x y"] = EValue.List (rustSplitn usizeMax " " "x y") ∧
    ("x y" : String).data.length + 1 ≤ usizeMax ∧
    rustSplitn usizeMax " " "x y" = (splitAll [' '] ("x y" : String).data).map String.mk ∧
    join [EValue.List ["x", "y"]] = EValue.Str (String.intercalate " " ["x", "y"]) :=
  ⟨string_split_join_spec.2.2.1 "x y", by decide,
   string_split_join_spec.2.2.2.1 "x y" (by decide),
   string_split_join_spec.2.2.2.2 ["x", "y"]⟩

/-- C10 counterexample: with an explicit third argument that parses to `0`,
Rust's `splitn(0, ..)` yields no pieces at all, so `string_split` returns
the empty list — not a list of at least one element. -/
theorem string_split_empty_list :
    string_split [EValue.Str "a", EValue.Str ":", EValue.Str "0"]
      = EValue.List [] := by decide

/-- C10 (amended).  `string_split` returns a `List` of at least one element
whenever the max-split argument is absent or does not parse to `0`; in
particular splitting the empty string, or calling with no arguments at
all, yields the one-element list holding the empty string.  (With an
explicit max of `0` the result is the empty list.) -/
theorem string_split_nonempty :
    (∀ args : List EValue,
        (args[2]?.bind (fun s => parseUsize s.as_str)).getD usizeMax ≠ 0 →
        ∃ l, string_split args = EValue.List l ∧ l ≠ []) ∧
    string_split [EValue.Str ""] = EValue.List [""] ∧
    string_split [] = EValue.List [""] := by
  refine ⟨fun args h => ⟨_, rfl, ?_⟩, by decide, by decide⟩
  intro hnil
  have := List.map_eq_nil_iff.mp hnil
  exact splitnList_ne_nil _ _ _ h this

/-- C10 witness: the amended theorem applied with no arguments at all. -/
theorem string_split_nonempty_witness :
    ((([] : List EValue)[2]?.bind (fun s => parseUsize s.as_str)).getD usizeMax ≠ 0) ∧
    ∃ l, string_split [] = EValue.List l ∧ l ≠ [] :=
  ⟨by decide, string_split_nonempty.1 [] (by decide)⟩



/-! ## C6 — `parse_include` attribute handling -/

/-- With pairwise-distinct attribute keys (which quick_xml's duplicate
check guarantees), `find?` on a key returns exactly the member carrying
it. -/
theorem find?_key_eq_some {attrs : List Attr}
    (hnodup : attrs.Pairwise (fun a b => a.key ≠ b.key))
    {a : Attr} (ha : a ∈ attrs) (k : String) (hk : a.key = k) :
    attrs.find? (fun x => x.key = k) = some a := by
  induction attrs with
  | nil => simp at ha
  | cons x rest ih =>
    rw [List.pairwise_cons] at hnodup
    rcases List.mem_cons.mp ha with hax | harest
    · subst hax
      simp [List.find?_cons, hk]
    · have hne : x.key ≠ k := by
        intro hxk
        exact hnodup.1 a harest (by rw [hxk, hk])
      rw [List.find?_cons_of_neg _ (by simpa using hne)]
      exact ih hnodup.2 harest

/-- C6.  For duplicate-free attribute lists: a missing `src` attribute
fails with `MissingRequiredParameter` naming the tag and `src`; any
attribute list carrying `src` parses successfully — `alt` is optional and
taken from the `alt` attribute when present; and the parsed
`continue_on_error` flag is `true` exactly when an `onerror` attribute
with the literal value `continue` is present (any other `onerror` value
behaves like an absent attribute). -/
theorem parse_include_spec (tagName : String) (attrs : List Attr)
    (hnodup : attrs.Pairwise (fun a b => a.key ≠ b.key)) :
    ((∀ a ∈ attrs, a.key ≠ "src") →
        parse_include tagName attrs
          = .error (.MissingRequiredParameter tagName "src")) ∧
    (∀ a ∈ attrs, a.key = "src" →
        ∃ r, parse_include tagName attrs = .ok r ∧ r.src = a.value ∧
          r.alt = (attrs.find? (fun x => x.key = "alt")).map Attr.value) ∧
    (∀ r, parse_include tagName attrs = .ok r →
        (r.continue_on_error = true ↔
          ∃ a ∈ attrs, a.key = "onerror" ∧ a.value = "continue")) := by
  refine ⟨?_, ?_, ?_⟩
  · intro hnone
    unfold parse_include
    rw [List.find?_eq_none.mpr (by simpa using hnone)]
  · intro a ha hk
    unfold parse_include
    rw [find?_key_eq_some hnodup ha "src" hk]
    exact ⟨_, rfl, rfl, rfl⟩
  · intro r hr
    unfold parse_include at hr
    cases hfind : attrs.find? (fun x => x.key = "src") with
    | none => rw [hfind] at hr; exact absurd hr (by simp)
    | some srcAttr =>
      rw [hfind] at hr
      injection hr with hrec
      subst hrec
      cases honerr : attrs.find? (fun x => x.key = "onerror") with
      | none =>
        simp only [honerr]
        constructor
        · intro h; exact absurd h (by simp)
        · rintro ⟨a, ha, hk, _⟩
          have := List.find?_eq_none.mp honerr a ha
          simp [hk] at this
      | some b =>
        have hbk : b.key = "onerror" := by simpa using List.find?_some honerr
        have hbmem := List.mem_of_find?_eq_some honerr
        simp only [honerr]
        constructor
        · intro h
          refine ⟨b, hbmem, hbk, ?_⟩
          simpa using h
        · rintro ⟨a, ha, hk, hv⟩
          have hfa : attrs.find? (fun x => x.key = "onerror") = some a :=
            find?_key_eq_some hnodup ha "onerror" hk
          rw [honerr] at hfa
          injection hfa with hba
          subst hba
          simp [hv]

/-- C6 witness: the theorem applied to the concrete attribute lists of an
include without `src` and of one with `src`, `alt` and
`onerror="continue"`. -/
theorem parse_include_spec_witness :
    parse_include "esi:include" [⟨"onerror", "continue"⟩]
        = .error (.MissingRequiredParameter "esi:include" "src") ∧
    ∃ r, parse_include "esi:include"
        [⟨"src", "/a"⟩, ⟨"alt", "/b"⟩, ⟨"onerror", "abort"⟩] = .ok r ∧
      r.src = "/a" ∧
      r.alt = (([⟨"src", "/a"⟩, ⟨"alt", "/b"⟩, ⟨"onerror", "abort"⟩] :
          List Attr).find? (fun x => x.key = "alt")).map Attr.value :=
  ⟨(parse_include_spec "esi:include" [⟨"onerror", "continue"⟩]
      (by decide)).1 (by decide),
   (parse_include_spec "esi:include"
      [⟨"src", "/a"⟩, ⟨"alt", "/b"⟩, ⟨"onerror", "abort"⟩]
      (by decide)).2.1 ⟨"src", "/a"⟩ (by decide) rfl⟩



/-! ## C8 — the error taxonomy surfaced to callers -/

/-- C8 counterexample: `ExecutionError` has no `WriterError` variant (and
writer failures in `lib.rs` panic through `unwrap`/`expect` instead of
surfacing an error), so the spec's eight-variant list does not match the
declared enum. -/
theorem no_writer_error_variant :
    ¬ ∃ e : ExecutionError, e.variantName = "WriterError" := by
  rintro ⟨e, h⟩
  cases e <;> simp [ExecutionError.variantName] at h

/-- C8 (amended).  The error type comprises exactly the six declared
variants `XMLError` (wrapping the `quick_xml` parse error — the spec calls
it `XmlParseError`), `MissingRequiredParameter(tag, param)`,
`UnexpectedClosingTag(name)`, `InvalidRequestUrl(value)`,
`RequestError(transport)` and `UnexpectedStatus(url, code)`.  There is no
`UnexpectedOpeningTag` variant (although `parse.rs` names one in
`unexpected_opening_tag_error`) and no `WriterError` variant, so the
declared list differs from the spec's. -/
theorem execution_error_taxonomy :
    (∀ e : ExecutionError, e.variantName ∈ executionErrorVariants) ∧
    (∃ e : ExecutionError, e.variantName = "XMLError") ∧
    (∃ e : ExecutionError, e.variantName = "MissingRequiredParameter") ∧
    (∃ e : ExecutionError, e.variantName = "UnexpectedClosingTag") ∧
    (∃ e : ExecutionError, e.variantName = "InvalidRequestUrl") ∧
    (∃ e : ExecutionError, e.variantName = "RequestError") ∧
    (∃ e : ExecutionError, e.variantName = "UnexpectedStatus") ∧
    "UnexpectedOpeningTag" ∉ executionErrorVariants ∧
    "WriterError" ∉ executionErrorVariants ∧
    executionErrorVariants ≠ specClaimedVariants :=
  ⟨fun e => by cases e <;> simp [ExecutionError.variantName, executionErrorVariants],
   ⟨.XMLError "", rfl⟩, ⟨.MissingRequiredParameter "" "", rfl⟩,
   ⟨.UnexpectedClosingTag "", rfl⟩, ⟨.InvalidRequestUrl "", rfl⟩,
   ⟨.RequestError "", rfl⟩, ⟨.UnexpectedStatus "" 0, rfl⟩,
   by decide, by decide, by decide⟩



/-! ## C9 — prefix versus exact tag matching in `do_parse` -/

theorem startsWith_iff (name pattern : String) :
    startsWith name pattern = true ↔ pattern.data <+: name.data := by
  simp [startsWith, List.isPrefixOf_iff_prefix]

theorem startsWith_ns_iff (ns a b : String) :
    startsWith (ns ++ b) (ns ++ a) = true ↔ a.data <+: b.data := by
  rw [startsWith_iff, String.data_append, String.data_append,
    List.prefix_append_right_inj]

theorem ns_append_ne (ns : String) {a b : String} (h : a.data ≠ b.data) :
    ns ++ a ≠ ns ++ b := by
  intro he
  apply h
  have hd : (ns ++ a).data = (ns ++ b).data := by rw [he]
  rw [String.data_append, String.data_append] at hd
  exact List.append_cancel_left hd

/-- A name that begins with `<ns>:include` differs from `<ns> ++ s` for
every suffix `s` that `:include` does not begin. -/
theorem include_prefixed_ne (ns name : String)
    (h : startsWith name (ns ++ ":include") = true)
    {s : String} (hs : ¬ (":include" : String).data <+: s.data) :
    name ≠ ns ++ s := by
  intro he
  subst he
  exact hs ((startsWith_ns_iff ns ":include" s).mp h)

/-- A name that begins with `<ns>:comment` does not begin with
`<ns>:include`. -/
theorem comment_prefixed_not_include (ns name : String)
    (h : startsWith name (ns ++ ":comment") = true) :
    startsWith name (ns ++ ":include") = false := by
  rw [startsWith_iff] at h
  rw [Bool.eq_false_iff, Ne, startsWith_iff]
  intro hi
  rcases List.prefix_or_prefix_of_prefix h hi with hc | hc <;>
    rw [String.data_append, String.data_append,
      List.prefix_append_right_inj] at hc <;> revert hc <;> decide

/-- C9.  Classification of tag names by the guards of `do_parse`: every
qualified name beginning with `<namespace>:include` is treated as an
include directive (both for open and for self-closing tags), every
self-closing name beginning with `<namespace>:comment` is treated as a
comment, while `remove`, `try`, `attempt` and `except` match only on exact
qualified-name equality. -/
theorem tag_matching_spec (ns name : String) :
    (startsWith name (ns ++ ":include") = true →
        classifyStart (EsiTags.init ns) name = .includeTag ∧
        classifyEmpty (EsiTags.init ns) name = .includeTag) ∧
    (startsWith name (ns ++ ":comment") = true →
        classifyEmpty (EsiTags.init ns) name = .commentTag) ∧
    (classifyStart (EsiTags.init ns) name = .removeTag ↔ name = ns ++ ":remove") ∧
    (classifyStart (EsiTags.init ns) name = .tryTag ↔ name = ns ++ ":try") ∧
    (classifyStart (EsiTags.init ns) name = .attemptTag ↔ name = ns ++ ":attempt") ∧
    (classifyStart (EsiTags.init ns) name = .exceptTag ↔ name = ns ++ ":except") := by
  have hremove : startsWith name (ns ++ ":include") = true → name ≠ ns ++ ":remove" :=
    fun h => include_prefixed_ne ns name h (by decide)
  constructor
  · intro h
    constructor
    · unfold classifyStart EsiTags.init
      rw [if_neg (hremove h), if_pos h]
    · unfold classifyEmpty EsiTags.init
      rw [if_pos h]
  constructor
  · intro h
    unfold classifyEmpty EsiTags.init
    rw [comment_prefixed_not_include ns name h]
    simp only [Bool.false_eq_true, if_false]
    rw [if_pos h]
  have hni : ∀ s : String, ¬ (":include" : String).data <+: s.data →
      startsWith (ns ++ s) (ns ++ ":include") = false := by
    intro s hs
    rw [Bool.eq_false_iff, Ne, startsWith_ns_iff]
    exact hs
  constructor
  · constructor
    · intro h
      unfold classifyStart EsiTags.init at h
      by_cases h1 : name = ns ++ ":remove"
      · exact h1
      · rw [if_neg h1] at h
        split_ifs at h
    · intro h
      subst h
      unfold classifyStart EsiTags.init
      rw [if_pos rfl]
  constructor
  · constructor
    · intro h
      unfold classifyStart EsiTags.init at h
      by_cases h2 : name = ns ++ ":try"
      · exact h2
      · split_ifs at h
    · intro h
      subst h
      unfold classifyStart EsiTags.init
      rw [if_neg (ns_append_ne ns (by decide)), if_neg ?_, if_pos rfl]
      rw [hni ":try" (by decide)]
      simp
  constructor
  · constructor
    · intro h
      unfold classifyStart EsiTags.init at h
      by_cases h2 : name = ns ++ ":attempt"
      · exact h2
      · split_ifs at h
    · intro h
      subst h
      unfold classifyStart EsiTags.init
      rw [if_neg (ns_append_ne ns (by decide)), if_neg ?_,
        if_neg (ns_append_ne ns (by decide)), if_pos rfl]
      rw [hni ":attempt" (by decide)]
      simp
  · constructor
    · intro h
      unfold classifyStart EsiTags.init at h
      by_cases h2 : name = ns ++ ":except"
      · exact h2
      · split_ifs at h
    · intro h
      subst h
      unfold classifyStart EsiTags.init
      rw [if_neg (ns_append_ne ns (by decide)), if_neg ?_,
        if_neg (ns_append_ne ns (by decide)),
        if_neg (ns_append_ne ns (by decide)), if_pos rfl]
      rw [hni ":except" (by decide)]
      simp

/-- C9 witness: with the default namespace, the tag `esi:included` is
classified as an include directive by prefix matching, while
`esi:attempt` matches exactly. -/
theorem tag_matching_spec_witness :
    (classifyStart (EsiTags.init "esi") "esi:included" = .includeTag ∧
      classifyEmpty (EsiTags.init "esi") "esi:included" = .includeTag) ∧
    classifyStart (EsiTags.init "esi") "esi:attempt" = .attemptTag :=
  ⟨(tag_matching_spec "esi" "esi:included").1 (by decide),
   ((tag_matching_spec "esi" "esi:attempt").2.2.2.2.1).mpr rfl⟩



/-! ## C5 — `|default` chaining -/

/-- A small concrete request context whose `accept-language` header is
present but empty. -/
def ctxEmptyHeader : RequestCtx :=
  { headers := [("accept-language", "")]
    query := []
    method := "GET"
    path := "/"
    client_ip := none
    device_lookup := fun _ => none
    rng := fun _ => 0 }

/-- C5 counterexample: for a header variable whose primary resolution is
present but empty (`EValue::is_empty` holds of it), the `|default`
expression — which would evaluate to `fallback` — is *not* substituted:
`header_value` wraps the header in `Some` without any emptiness
normalisation, so `value_or_default` keeps the empty string.  Present-but-
empty data is therefore not treated like absent data. -/
theorem default_not_used_on_empty_header :
    EValue.is_empty (EValue.Str "") = true ∧
    resolve_var ctxEmptyHeader "HTTP_ACCEPT_LANGUAGE" none
        (some (Symbol.Text (some "fallback"))) = EValue.Str "" ∧
    handle_symbol ctxEmptyHeader (Symbol.Text (some "fallback"))
        = EValue.Str "fallback" ∧
    (EValue.Str "" : EValue) ≠ EValue.Str "fallback" := by
  refine ⟨rfl, ?_, ?_, by decide⟩
  · rw [resolve_var]
    simp [header_value, value_or_default, RequestCtx.get_header_str,
      ctxEmptyHeader]
  · rw [handle_symbol]

/-- C5 (amended).  The default expression is evaluated and substituted
exactly when the primary resolution is *absent*.  `QUERY_STRING`
additionally normalises empty results (empty parameter value, empty query
dict) to absent before the default is consulted; but for header variables
and `HTTP_COOKIE` a present-but-empty value is returned as-is and the
default is ignored, and the keyless `HTTP_COOKIE` always resolves to the
cookie dict, even when it is empty. -/
theorem default_chaining_spec (ctx : RequestCtx) (dflt : Symbol) :
    (∀ k : String,
        (ctx.get_query_parameter k = none ∨ ctx.get_query_parameter k = some "") →
        var_query_string ctx (some k) (some dflt) = handle_symbol ctx dflt) ∧
    (ctx.query = [] →
        var_query_string ctx none (some dflt) = handle_symbol ctx dflt) ∧
    (∀ h : String, ctx.get_header_str h = none →
        header_value ctx h (some dflt) = handle_symbol ctx dflt) ∧
    (∀ h v, ctx.get_header_str h = some v →
        header_value ctx h (some dflt) = EValue.Str v) ∧
    (∀ k, (cookiePairs ctx).find? (fun p => p.1 == k) = none →
        var_http_cookie ctx (some k) (some dflt) = handle_symbol ctx dflt) ∧
    (∀ k pr, (cookiePairs ctx).find? (fun p => p.1 == k) = some pr →
        var_http_cookie ctx (some k) (some dflt) = EValue.Str pr.2) ∧
    var_http_cookie ctx none (some dflt) = EValue.Dict (cookiePairs ctx) := by
  refine ⟨?_, ?_, ?_, ?_, ?_, ?_, ?_⟩
  · intro k hk
    rw [var_query_string]
    rcases hk with hk | hk <;>
      simp [hk, EValue.is_empty, value_or_default,
        show ("" : String).isEmpty = true from rfl]
  · intro hq
    rw [var_query_string]
    simp [hq, EValue.is_empty, value_or_default]
  · intro h hh
    rw [header_value]
    simp [hh, value_or_default]
  · intro h v hv
    rw [header_value]
    simp [hv, value_or_default]
  · intro k hk
    rw [var_http_cookie]
    simp [hk, value_or_default]
  · intro k pr hpr
    rw [var_http_cookie]
    simp [hpr, value_or_default]
  · rw [var_http_cookie]
    simp [value_or_default]

/-- C5 witness: the amended theorem applied to a context with one query
parameter present but empty, one cookie, and a missing header. -/
def ctxWitness : RequestCtx :=
  { headers := [("cookie", "user=john")]
    query := [("foo", "")]
    method := "GET"
    path := "/"
    client_ip := none
    device_lookup := fun _ => none
    rng := fun _ => 0 }

theorem default_chaining_spec_witness :
    (ctxWitness.get_query_parameter "foo" = none ∨
        ctxWitness.get_query_parameter "foo" = some "") ∧
    var_query_string ctxWitness (some "foo") (some (Symbol.Text (some "d")))
      = handle_symbol ctxWitness (Symbol.Text (some "d")) ∧
    ctxWitness.get_header_str "host" = none ∧
    header_value ctxWitness "host" (some (Symbol.Text (some "d")))
      = handle_symbol ctxWitness (Symbol.Text (some "d")) ∧
    (cookiePairs ctxWitness).find? (fun p => p.1 == "user")
      = some ("user", "john") ∧
    var_http_cookie ctxWitness (some "user") (some (Symbol.Text (some "d")))
      = EValue.Str "john" :=
  ⟨Or.inr (by decide),
   (default_chaining_spec ctxWitness (Symbol.Text (some "d"))).1 "foo"
     (Or.inr (by decide)),
   by decide,
   (default_chaining_spec ctxWitness (Symbol.Text (some "d"))).2.2.1 "host"
     (by decide),
   by decide,
   by rw [(default_chaining_spec ctxWitness (Symbol.Text (some "d"))).2.2.2.2.2.1
       "user" ("user", "john") (by decide)]⟩



/-! ## C1 — output bytes in document order -/

/-- Elements whose resolution performs no dispatch and cannot fail: raw
bytes, and includes whose primary response arrived with a success
status. -/
def flatSuccess : Element → Prop
  | .Raw _ => True
  | .Include f => ∃ r, f.pending_request.result = .ok r ∧ isSuccess r.status = true
  | .Try _ _ => False

/-- The bytes a queue of such elements contributes, in queue order. -/
def renderFlat : List Element → String
  | [] => ""
  | .Raw raw :: rest => raw ++ renderFlat rest
  | .Include f :: rest =>
    (match f.pending_request.result with
      | .ok r => r.body
      | .error _ => "") ++ renderFlat rest
  | .Try _ _ :: rest => renderFlat rest

/-- C1.  The scheduler writes bytes in queue order — which is document
order, since the parse phase appends elements with `push_back` as it walks
the source: when every include in the queue has resolved successfully,
`poll_elements` emits exactly the concatenation of the queued bytes and
response bodies in queue order, and the driver loop finishes with that
output.  The completion times of the backends (the `arrival` fields of the
pending requests) are universally quantified here and do not occur in the
conclusion: a fragment later in the queue may answer first without
affecting the output order, because each include is awaited only when it
reaches the queue front. -/
theorem poll_elements_document_order (env : Env) (elements : List Element)
    (out : String) (h : ∀ el ∈ elements, flatSuccess el) :
    poll_elements env elements out
        = (.ok ([], out ++ renderFlat elements), []) ∧
    ∀ fuel : Nat, drive env (fuel + 2) elements out
        = some (.ok (out ++ renderFlat elements), []) := by
  have main : ∀ (q : List Element) (o : String), (∀ el ∈ q, flatSuccess el) →
      poll_elements env q o = (.ok ([], o ++ renderFlat q), []) := by
    intro q
    induction q with
    | nil =>
      intro o _
      rw [poll_elements]
      simp [renderFlat]
    | cons el rest ih =>
      intro o hq
      have hel := hq el (List.mem_cons_self el rest)
      have hrest : ∀ x ∈ rest, flatSuccess x :=
        fun x hx => hq x (List.mem_cons_of_mem el hx)
      cases el with
      | Raw raw =>
        rw [poll_elements, ih (o ++ raw) hrest]
        simp [renderFlat, String.append_assoc]
      | Include f =>
        obtain ⟨r, hres, hsucc⟩ := hel
        rw [poll_elements, hres]
        simp only [hsucc, if_true]
        rw [ih (o ++ r.body) hrest]
        simp [renderFlat, hres, String.append_assoc]
      | Try a e => exact absurd hel (by simp [flatSuccess])
  refine ⟨main elements out h, fun fuel => ?_⟩
  cases elements with
  | nil => simp [drive, renderFlat]
  | cons el rest =>
    rw [drive.eq_def]
    simp only [List.isEmpty_cons, if_false, Bool.false_eq_true]
    rw [main (el :: rest) out h]
    simp [drive]

/-- C1 witness: two successful includes where the second backend answers
first (arrival 1 against 5); the bodies still appear in queue order. -/
def fragA : Fragment :=
  { request := ⟨"http://origin/a"⟩, alt := none, continue_on_error := false
    pending_request := { result := .ok ⟨200, "A"⟩, arrival := 5 } }

def fragB : Fragment :=
  { request := ⟨"http://origin/b"⟩, alt := none, continue_on_error := false
    pending_request := { result := .ok ⟨200, "B"⟩, arrival := 1 } }

def envNone : Env := { dispatch := fun _ => .ok none }

theorem poll_elements_document_order_witness :
    (∀ el ∈ [Element.Include fragA, Element.Include fragB], flatSuccess el) ∧
    poll_elements envNone [Element.Include fragA, Element.Include fragB] ""
      = (.ok ([], "AB"), []) := by
  have hflat : ∀ el ∈ [Element.Include fragA, Element.Include fragB], flatSuccess el := by
    intro el hel
    rcases List.mem_cons.mp hel with rfl | hel2
    · exact ⟨⟨200, "A"⟩, rfl, rfl⟩
    rcases List.mem_cons.mp hel2 with rfl | hel3
    · exact ⟨⟨200, "B"⟩, rfl, rfl⟩
    · simp at hel3
  exact ⟨hflat,
    (poll_elements_document_order envNone _ "" hflat).1⟩



/-! ## C4 — the `alt` request is dispatched at most once, after the
primary fails -/

/-- C4.  Behaviour of an include element carrying an `alt`, both in
`poll_elements` and in the task loop of `poll_tasks`:

* when the primary response is a success, the element is resolved without
  any dispatch (the whole result, dispatch log included, equals that of
  the remaining queue);
* when the primary response has a non-success status and the alt request
  dispatches, exactly one request — the alt — is handed to `dispatch`
  (`[altReq]` is the complete log of the step), the new element is pushed
  to the *front* of the queue, carries no further alt, and inherits the
  original `continue_on_error` flag; `poll_tasks` additionally reports
  `Pending`;
* an include without an alt never dispatches anything, so the element
  built for the alt can never dispatch a second time: on a complete
  driver run of such an element the alt URL is dispatched exactly once. -/
theorem alt_dispatch_spec (env : Env) (f : Fragment) (rest : List Element)
    (out : String) (res : ResponseM)
    (hres : f.pending_request.result = .ok res) :
    (isSuccess res.status = true →
        poll_elements env (.Include f :: rest) out
          = poll_elements env rest (out ++ res.body)) ∧
    (∀ altReq pending, isSuccess res.status = false →
        f.alt = some (.ok altReq) →
        env.dispatch altReq = .ok (some pending) →
        poll_elements env (.Include f :: rest) out
          = (.ok (.Include ⟨altReq, none, f.continue_on_error, pending⟩
              :: rest, out), [altReq]) ∧
        poll_task_queue env (.Include f :: rest) out
          = (.ok (.Include ⟨altReq, none, f.continue_on_error, pending⟩
              :: rest, out, .Pending), [altReq])) ∧
    (isSuccess res.status = false → f.alt = none →
        poll_elements env (.Include f :: rest) out
          = if f.continue_on_error then poll_elements env rest out
            else (.error (.UnexpectedStatus f.request.url res.status), [])) ∧
    (∀ altReq pending res2 fuel, isSuccess res.status = false →
        f.alt = some (.ok altReq) →
        env.dispatch altReq = .ok (some pending) →
        pending.result = .ok res2 → isSuccess res2.status = true →
        drive env (fuel + 3) [.Include f] out
          = some (.ok (out ++ res2.body), [altReq])) := by
  refine ⟨?_, ?_, ?_, ?_⟩
  · intro hsucc
    rw [poll_elements, hres]
    simp only [hsucc, if_true]
  · intro altReq pending hfail halt hdisp
    constructor
    · rw [poll_elements, hres]
      simp only [hfail, Bool.false_eq_true, if_false, halt]
      simp [send_fragment_request, hdisp]
    · rw [poll_task_queue, hres]
      simp only [hfail, Bool.false_eq_true, if_false, halt]
      simp [send_fragment_request, hdisp]
  · intro hfail halt
    rw [poll_elements, hres]
    simp only [hfail, Bool.false_eq_true, if_false, halt]
  · intro altReq pending res2 fuel hfail halt hdisp hres2 hsucc2
    rw [drive.eq_def]
    simp only [List.isEmpty_cons, Bool.false_eq_true, if_false]
    rw [poll_elements, hres]
    simp only [hfail, Bool.false_eq_true, if_false, halt]
    simp only [send_fragment_request, hdisp]
    rw [drive.eq_def]
    simp only [List.isEmpty_cons, Bool.false_eq_true, if_false]
    rw [poll_elements, hres2]
    simp only [hsucc2, if_true]
    rw [poll_elements]
    simp [drive]

/-- C4 witness: a concrete primary that fails with status 500 and an alt
that answers 200 with body `OK`; the full driver run dispatches the alt
exactly once and emits `OK`. -/
def altReqW : RequestM := ⟨"http://origin/alt"⟩

def pendingAltW : PendingRequest := { result := .ok ⟨200, "OK"⟩, arrival := 0 }

def fragPrimaryW : Fragment :=
  { request := ⟨"http://origin/a"⟩, alt := some (.ok altReqW)
    continue_on_error := false
    pending_request := { result := .ok ⟨500, ""⟩, arrival := 0 } }

def envAltW : Env :=
  { dispatch := fun r => if r.url = "http://origin/alt"
      then .ok (some pendingAltW) else .ok none }

theorem alt_dispatch_spec_witness :
    fragPrimaryW.pending_request.result = .ok ⟨500, ""⟩ ∧
    isSuccess 500 = false ∧
    drive envAltW 3 [.Include fragPrimaryW] ""
      = some (.ok ("" ++ "OK"), [altReqW]) :=
  ⟨rfl, rfl,
    (alt_dispatch_spec envAltW fragPrimaryW [] "" ⟨500, ""⟩ rfl).2.2.2
      altReqW pendingAltW ⟨200, "OK"⟩ 0 rfl rfl rfl rfl rfl⟩



/-! ## C2 and C3 — `try` block resolution -/

/-- Shared helper: a task queue of raw bytes and successful includes
drains completely, appends its bytes in order to the task buffer,
dispatches nothing and reports `Succeeded`. -/
theorem poll_task_queue_flat (env : Env) (q : List Element) (out : String)
    (h : ∀ el ∈ q, flatSuccess el) :
    poll_task_queue env q out = (.ok ([], out ++ renderFlat q, .Succeeded), []) := by
  induction q generalizing out with
  | nil =>
    rw [poll_task_queue]
    simp [renderFlat]
  | cons el rest ih =>
    have hel := h el (List.mem_cons_self el rest)
    have hrest : ∀ x ∈ rest, flatSuccess x :=
      fun x hx => h x (List.mem_cons_of_mem el hx)
    cases el with
    | Raw raw =>
      rw [poll_task_queue, ih (out ++ raw) hrest]
      simp [renderFlat, String.append_assoc]
    | Include f =>
      obtain ⟨r, hres, hsucc⟩ := hel
      rw [poll_task_queue, hres]
      simp only [hsucc, if_true]
      rw [ih (out ++ r.body) hrest]
      simp [renderFlat, hres, String.append_assoc]
    | Try a e => exact absurd hel (by simp [flatSuccess])

/-- Shared helper: a not-yet-failed task whose queue is all-successful
polls to `Succeeded` with its buffer extended in order; its stored status
stays `Pending` (the source never stores `Succeeded`). -/
theorem poll_tasks_flat (env : Env) (t : Task)
    (h : ∀ el ∈ t.queue, flatSuccess el) (hst : t.status = .Pending) :
    poll_tasks env t
      = (.ok (⟨[], t.output ++ renderFlat t.queue, .Pending⟩, .Succeeded), []) := by
  rw [poll_tasks, hst, poll_task_queue_flat env t.queue t.output h]

/-- C2 (amended).  When every include in the `attempt` branch has resolved
successfully (and the attempt task has not previously failed), the
`TryBlock` contributes exactly the processed attempt subtree — the
attempt's buffer and its queue's bytes in order — and the `except` branch
contributes no bytes.  The except task is *not* discarded unpolled,
however: `poll_elements` polls it before inspecting the attempt's state,
so its dispatch log (for example an alt dispatched for a failing include
inside `except`) is part of the result, and a transport error raised
while awaiting an except fragment still aborts processing. -/
theorem try_attempt_success_spec (env : Env) (a e : Task) (rest : List Element)
    (out : String) (ha : ∀ el ∈ a.queue, flatSuccess el)
    (hst : a.status = .Pending) :
    (∀ e2 se loge, poll_tasks env e = (.ok (e2, se), loge) →
        poll_elements env (.Try a e :: rest) out
          = ((poll_elements env rest (out ++ (a.output ++ renderFlat a.queue))).1,
             loge ++ (poll_elements env rest
               (out ++ (a.output ++ renderFlat a.queue))).2)) ∧
    (∀ err loge, poll_tasks env e = (.error err, loge) →
        poll_elements env (.Try a e :: rest) out = (.error err, loge)) := by
  have hA := poll_tasks_flat env a ha hst
  constructor
  · intro e2 se loge he
    rw [poll_elements, poll_try, hA, he]
    simp
  · intro err loge he
    rw [poll_elements, poll_try, hA, he]
    simp

/-- C2 witness: attempt holding raw bytes `A` only, except a plain failed
include without alt; the block emits `A` and nothing from except. -/
def attemptRawA : Task := ⟨[.Raw "A"], "", .Pending⟩

def exceptPlainFail : Task :=
  ⟨[.Include ⟨⟨"http://origin/e"⟩, none, false,
      ⟨.ok ⟨500, ""⟩, 0⟩⟩], "", .Pending⟩

theorem try_attempt_success_spec_witness :
    (∀ el ∈ attemptRawA.queue, flatSuccess el) ∧
    attemptRawA.status = FetchState.Pending ∧
    poll_elements envNone [.Try attemptRawA exceptPlainFail] ""
      = (.ok ([], "A"), []) := by
  have hflat : ∀ el ∈ attemptRawA.queue, flatSuccess el := by
    intro el hel
    rcases List.mem_cons.mp hel with rfl | h2
    · trivial
    · simp at h2
  have hE : poll_tasks envNone exceptPlainFail
      = (.ok (⟨[], "", .Failed ⟨"http://origin/e"⟩ 500⟩,
          .Failed ⟨"http://origin/e"⟩ 500), []) := by
    rw [poll_tasks]
    rw [show exceptPlainFail.status = .Pending from rfl]
    rw [show exceptPlainFail.queue
        = [.Include ⟨⟨"http://origin/e"⟩, none, false, ⟨.ok ⟨500, ""⟩, 0⟩⟩]
      from rfl]
    rw [show exceptPlainFail.output = "" from rfl]
    rw [poll_task_queue]
    simp [isSuccess]
  have h := (try_attempt_success_spec envNone attemptRawA exceptPlainFail []
    "" hflat rfl).1 _ _ _ hE
  refine ⟨hflat, rfl, ?_⟩
  rw [h, poll_elements]
  simp [renderFlat, attemptRawA]

/-- C2 counterexample: the attempt branch is all-success (raw bytes `A`),
yet resolving the `TryBlock` dispatches a request — the alt of a failing
include sitting in the *except* branch — because `poll_elements` polls
the except task before looking at the attempt's state.  The output is
still the attempt subtree alone, but the except task was not discarded
without dispatching further work. -/
def exceptAltFrag : Fragment :=
  ⟨⟨"http://origin/e"⟩, some (.ok ⟨"http://origin/fallback"⟩), false,
   ⟨.ok ⟨500, ""⟩, 0⟩⟩

def exceptAltTask : Task := ⟨[.Include exceptAltFrag], "", .Pending⟩

def envFallback : Env :=
  { dispatch := fun r => if r.url = "http://origin/fallback"
      then .ok (some ⟨.ok ⟨200, "F"⟩, 0⟩) else .ok none }

theorem try_attempt_success_dispatches_in_except :
    (∀ el ∈ attemptRawA.queue, flatSuccess el) ∧
    poll_elements envFallback [.Try attemptRawA exceptAltTask] ""
      = (.ok ([], "A"), [⟨"http://origin/fallback"⟩]) ∧
    ([(⟨"http://origin/fallback"⟩ : RequestM)] : List RequestM) ≠ [] := by
  have hflat : ∀ el ∈ attemptRawA.queue, flatSuccess el := by
    intro el hel
    rcases List.mem_cons.mp hel with rfl | h2
    · trivial
    · simp at h2
  have hA := poll_tasks_flat envFallback attemptRawA hflat rfl
  have hE : poll_tasks envFallback exceptAltTask
      = (.ok (⟨[.Include ⟨⟨"http://origin/fallback"⟩, none, false,
            ⟨.ok ⟨200, "F"⟩, 0⟩⟩], "", .Pending⟩, .Pending),
         [⟨"http://origin/fallback"⟩]) := by
    rw [poll_tasks]
    rw [show exceptAltTask.status = .Pending from rfl]
    rw [show exceptAltTask.queue = [.Include exceptAltFrag] from rfl]
    rw [show exceptAltTask.output = "" from rfl]
    rw [poll_task_queue]
    rw [show exceptAltFrag.pending_request.result = .ok ⟨500, ""⟩ from rfl]
    simp [isSuccess, exceptAltFrag, send_fragment_request, envFallback]
  refine ⟨hflat, ?_, by simp⟩
  rw [poll_elements, poll_try, hA, hE]
  simp only [List.nil_append]
  rw [poll_elements]
  simp [renderFlat, attemptRawA]

/-- C3.  When both branches of a `try` block report `Failed`, the block
resolves to an `UnexpectedStatus` error carrying the *attempt* branch's
failing request URL and status, not the except branch's. -/
theorem try_both_fail_spec (env : Env) (a e : Task) (rest : List Element)
    (out : String) (a2 e2 : Task) (ra re : RequestM) (sa se : Nat)
    (loga loge : List RequestM)
    (hha : poll_tasks env a = (.ok (a2, .Failed ra sa), loga))
    (hhe : poll_tasks env e = (.ok (e2, .Failed re se), loge)) :
    poll_elements env (.Try a e :: rest) out
      = (.error (.UnexpectedStatus ra.url sa), loga ++ loge) := by
  rw [poll_elements, poll_try, hha, hhe]

/-- C3 witness: an attempt previously failed with status 500 on
`http://a` and an except previously failed with 404 on `http://b`; the
surfaced error carries the attempt's URL and status. -/
def failedAttempt : Task := ⟨[], "", .Failed ⟨"http://a"⟩ 500⟩

def failedExcept : Task := ⟨[], "", .Failed ⟨"http://b"⟩ 404⟩

theorem try_both_fail_spec_witness :
    poll_tasks envNone failedAttempt
      = (.ok (failedAttempt, .Failed ⟨"http://a"⟩ 500), []) ∧
    poll_elements envNone [.Try failedAttempt failedExcept] ""
      = (.error (.UnexpectedStatus "http://a" 500), []) := by
  have h1 : poll_tasks envNone failedAttempt
      = (.ok (failedAttempt, .Failed ⟨"http://a"⟩ 500), []) := by
    rw [poll_tasks]
    rfl
  have h2 : poll_tasks envNone failedExcept
      = (.ok (failedExcept, .Failed ⟨"http://b"⟩ 404), []) := by
    rw [poll_tasks]
    rfl
  refine ⟨h1, ?_⟩
  have := try_both_fail_spec envNone failedAttempt failedExcept [] ""
    failedAttempt failedExcept ⟨"http://a"⟩ ⟨"http://b"⟩ 500 404 [] [] h1 h2
  simpa using this


end Esi
